import Mathlib

/-!
Verification development for the `pydatatypes` repository.

This file gives a shallow embedding of the core of `pydatatypes`:
the recursive type-checking / type-conversion engine of
`pydatatypes/typing.py`, the JSON bridge of `pydatatypes/json.py`, and
the record (dataclass) decoding glue of `pydatatypes/dataclass.py`,
together with theorems about their documented behaviour.

Modelling conventions:
  * Python runtime values are the inductive `Value`.  Mutable containers
    (`list`, `dict`) carry an optional address (`Option Nat`) so that
    object identity is observable: values supplied by the caller may
    carry `some a`, every container freshly allocated by the embedded
    code carries `none`.  Python `==` ignores identity and is modelled
    by `peq`.
  * Python floats are modelled as rationals: every numeric literal in
    the claims is exactly representable, so no rounding is involved.
  * Type descriptors are the inductive `Ty`, covering the descriptor
    algebra reachable through the library: `typing.Any`, scalar classes,
    `Union[...]`, and the generic container forms, each bare (`B`) or
    parameterized (`P`).  The builtin aliases `list`, `dict`, `tuple`,
    `set` are identified with their `typing` forms (the source's
    `_resolve_alias` rewrites them before dispatch), so `_resolve_alias`
    is the identity here.  `__args__` of a bare generic is taken to be
    absent, matching the Python 3.6 semantics the test-suite exercises.
  * Exceptions are modelled by `Except Err`, with one `Err` constructor
    per Python exception class that the embedded code can raise.  On
    this runtime a plain `issubclass` call raises when its first
    argument is not a class or when a parameterized generic appears in
    a prohibited position; the JSON special-case guard is modelled
    accordingly (see `jsonPre`).
-/

namespace Pydatatypes

/-- A Python runtime value (the fragment reachable in the claims). -/
inductive Value where
  | vnone : Value
  | vbool : Bool → Value
  | vint : Int → Value
  | vfloat : Rat → Value
  | vstr : String → Value
  | vlist : Option Nat → List Value → Value
  | vtuple : List Value → Value
  | vdict : Option Nat → List (Value × Value) → Value

/-- Exceptions raised by the embedded code.  `conversionError` is
`TypeConversionError` (it carries the offending value, the name of the
target type and the path, as the Python class does); `jsonError` is its
subclass `JsonTypeError`; the remaining constructors are the plain
builtin exceptions that also escape from the code. -/
inductive Err where
  | conversionError : Value → String → List Value → Err
  | jsonError : String → List Value → Err
  | typeError : String → Err
  | keyError : String → Err
  | notImplementedError : String → Err
  | attributeError : String → Err

/-- Whether an exception is a `TypeConversionError` (including its
subclass `JsonTypeError`). -/
def Err.isConversionError : Err → Bool
  | .conversionError _ _ _ => true
  | .jsonError _ _ => true
  | _ => false

/-- Numeric view of a value: Python's numeric tower compares `bool`,
`int` and `float` by value (`True == 1 == 1.0`). -/
def toRatQ : Value → Option Rat
  | .vbool b => some (if b then 1 else 0)
  | .vint n => some (n : Rat)
  | .vfloat q => some q
  | _ => none

mutual

/-- Python `==` on values: numeric cross-type equality, structural
equality on containers (ignoring object identity), dict equality by
key lookup. -/
def peq (a b : Value) : Bool :=
  match a, b with
  | .vstr s, .vstr t => s == t
  | .vnone, .vnone => true
  | .vlist _ xs, .vlist _ ys => peqList xs ys
  | .vtuple xs, .vtuple ys => peqList xs ys
  | .vdict _ es, .vdict _ fs => (es.length == fs.length) && peqEntries es fs
  | a, b =>
    match toRatQ a, toRatQ b with
    | some x, some y => x == y
    | _, _ => false
termination_by sizeOf a + sizeOf b
decreasing_by all_goals simp_wf; all_goals omega

/-- Pointwise `peq` on element lists. -/
def peqList (xs ys : List Value) : Bool :=
  match xs, ys with
  | [], [] => true
  | x :: xs, y :: ys => peq x y && peqList xs ys
  | _, _ => false
termination_by sizeOf xs + sizeOf ys
decreasing_by all_goals simp_wf; all_goals omega

/-- Every entry of the first dict maps, under key lookup in the second
dict, to a `peq`-equal value. -/
def peqEntries (es fs : List (Value × Value)) : Bool :=
  match es with
  | [] => true
  | (k, v) :: rest => peqFind k v fs && peqEntries rest fs
termination_by sizeOf es + sizeOf fs
decreasing_by all_goals simp_wf; all_goals omega

/-- Lookup of key `k` in a dict: the first entry whose key is
`peq`-equal to `k` decides; its value must be `peq`-equal to `v`. -/
def peqFind (k v : Value) (fs : List (Value × Value)) : Bool :=
  match fs with
  | [] => false
  | (k0, v0) :: rest =>
    if peq k0 k then peq v0 v else peqFind k v rest
termination_by sizeOf k + sizeOf v + sizeOf fs
decreasing_by all_goals simp_wf; all_goals omega

end

/-- Python dict item assignment `d[k] = v`: if a `peq`-equal key is
already present, the original key object and position are kept and only
the value is replaced; otherwise the entry is appended. -/
def dictInsert (d : List (Value × Value)) (k v : Value) : List (Value × Value) :=
  match d with
  | [] => [(k, v)]
  | (k0, v0) :: rest =>
    if peq k0 k then (k0, v) :: rest else (k0, v0) :: dictInsert rest k v

/-- A type descriptor, after `_resolve_alias`: the builtin container
classes are identified with their bare `typing` forms.  `B` suffixes are
the bare (unparameterized) generics, `P` suffixes the parameterized
ones; `int`/`float`/`bool`/`str`/`noneT` are the native scalar classes,
`integral`/`real` the `numbers` tower classes.

The `union` constructor over-approximates what `typing.Union[...]`
construction can produce: the Python 3.6 runtime flattens nested
unions, removes duplicates, and weeds out a branch that is a plain
class and a subclass of another plain-class branch (`Union[int, bool]`
is `int`; parameterized generics are exempt from the weeding).
Universal theorems quantify over the superset, which is sound; every
concrete descriptor used in an existential statement below is built
only from branch lists that survive that construction. -/
inductive Ty where
  | any : Ty
  | noneT : Ty
  | int : Ty
  | integral : Ty
  | float : Ty
  | real : Ty
  | bool : Ty
  | str : Ty
  | union : List Ty → Ty
  | listB : Ty
  | listP : Ty → Ty
  | dictB : Ty
  | dictP : Ty → Ty → Ty
  | mappingB : Ty
  | mappingP : Ty → Ty → Ty
  | sequenceB : Ty
  | sequenceP : Ty → Ty
  | collectionB : Ty
  | collectionP : Ty → Ty
  | setB : Ty
  | setP : Ty → Ty
  | tupleB : Ty
  | tupleP : Ty

/-- Display name of a descriptor, used in the `type` slot of a
`TypeConversionError` (parameters elided). -/
def tyName : Ty → String
  | .any => "typing.Any"
  | .noneT => "NoneType"
  | .int => "int"
  | .integral => "numbers.Integral"
  | .float => "float"
  | .real => "numbers.Real"
  | .bool => "bool"
  | .str => "str"
  | .union _ => "typing.Union"
  | .listB | .listP _ => "typing.List"
  | .dictB | .dictP _ _ => "typing.Dict"
  | .mappingB | .mappingP _ _ => "typing.Mapping"
  | .sequenceB | .sequenceP _ => "typing.Sequence"
  | .collectionB | .collectionP _ => "typing.Collection"
  | .setB | .setP _ => "typing.Set"
  | .tupleB | .tupleP => "typing.Tuple"

/-- Builtin `isinstance(v, int)`, also `isinstance(v, numbers.Integral)`:
`bool` is a subclass of `int`. -/
def isIntegralV : Value → Bool
  | .vbool _ | .vint _ => true
  | _ => false

/-- Builtin `isinstance(v, float)`: ints and bools are not floats. -/
def isFloatInstV : Value → Bool
  | .vfloat _ => true
  | _ => false

/-- Builtin `isinstance(v, numbers.Real)`. -/
def isRealV : Value → Bool
  | .vbool _ | .vint _ | .vfloat _ => true
  | _ => false

/-- Builtin `isinstance(v, bool)`. -/
def isBoolV : Value → Bool
  | .vbool _ => true
  | _ => false

/-- Builtin `isinstance(v, str)`. -/
def isStrV : Value → Bool
  | .vstr _ => true
  | _ => false

/-- Builtin `isinstance(v, type(None))`. -/
def isNoneV : Value → Bool
  | .vnone => true
  | _ => false

/-- Builtin `isinstance(v, list)`. -/
def isListV : Value → Bool
  | .vlist _ _ => true
  | _ => false

/-- Builtin `isinstance(v, tuple)`. -/
def isTupleV : Value → Bool
  | .vtuple _ => true
  | _ => false

/-- Builtin `isinstance(v, dict)`, which on this value fragment also
coincides with `isinstance(v, typing.Mapping)`. -/
def isDictV : Value → Bool
  | .vdict _ _ => true
  | _ => false

/-- Builtin `isinstance(v, typing.Sequence)`: lists, tuples and strings
are sequences. -/
def isSequenceV : Value → Bool
  | .vlist _ _ | .vtuple _ | .vstr _ => true
  | _ => false

/-- Builtin `isinstance(v, typing.Collection)` (sized, iterable,
container). -/
def isCollectionV : Value → Bool
  | .vlist _ _ | .vtuple _ | .vstr _ | .vdict _ _ => true
  | _ => false

/-- Python `int(v)` on a `numbers.Integral` instance. -/
def intOfV : Value → Int
  | .vbool b => if b then 1 else 0
  | .vint n => n
  | _ => 0

/-- Python `float(v)` on a `numbers.Real` instance. -/
def ratOfV : Value → Rat
  | .vbool b => if b then 1 else 0
  | .vint n => (n : Rat)
  | .vfloat q => q
  | _ => 0

/-- The `TypeError` text produced by line 388 of `typing.py`, where
`_CollectionTypeHandler.isinstance` calls
`self._isinstance_parameterized(self, value, type_, path)`, passing
`self` a second time. -/
def arityBugMsg : String :=
  "_isinstance_parameterized() takes 4 positional arguments but 5 were given"

/-- The dispatcher error for parameterized `Tuple[...]` descriptors
(`TypeConverter._find_tuple_handler`). -/
def tupleNotImplMsg : String :=
  "Structured or homogeneous Tuple[] types not implemented"

mutual

/-- Recursive `isinstance`: `TypeConverter._isinstance_recursive`
composed with `_get_handler` dispatch, one arm per handler.

Dispatch (from `TypeConverter._find_handler` and friends): `Any` and
`Union` first; generic types route by origin (`Dict`/`Mapping` to
`_DictTypeHandler`, `List`/`Sequence` to `_ListTypeHandler`,
parameterized `Collection`/`Set` to `_CollectionTypeHandler`, bare
`Collection`/`Set`/`Tuple` to `_TrivialTypeHandler`, parameterized
`Tuple` raises `NotImplementedError`); non-bool scalars assignable to
`numbers.Integral`/`numbers.Real` to the int/float handlers; everything
else to `_TrivialTypeHandler` (builtin `isinstance`).

Note the faithful slip in `_CollectionTypeHandler.isinstance`
(`typing.py:388`): once the base instance check succeeds on a
parameterized sequence/collection descriptor, the call
`self._isinstance_parameterized(self, value, type_, path)` passes one
positional argument too many and raises `TypeError`. -/
def isinst (v : Value) (t : Ty) (path : List Value) : Except Err Bool :=
  match t with
  | .any => .ok true
  | .union ts => isinstAll v ts path
  | .int | .integral => .ok (isIntegralV v)
  | .float => .ok (isFloatInstV v)
  | .real => .ok (isRealV v)
  | .bool => .ok (isBoolV v)
  | .str => .ok (isStrV v)
  | .noneT => .ok (isNoneV v)
  | .tupleB => .ok (isTupleV v)
  | .tupleP => .error (.notImplementedError tupleNotImplMsg)
  | .setB => .ok false
  | .setP _ => .ok false
  | .collectionB => .ok (isCollectionV v)
  | .collectionP _ =>
    if isCollectionV v then .error (.typeError arityBugMsg) else .ok false
  | .listB => .ok (isListV v)
  | .listP _ =>
    if isListV v then .error (.typeError arityBugMsg) else .ok false
  | .sequenceB => .ok (isSequenceV v)
  | .sequenceP _ =>
    if isSequenceV v then .error (.typeError arityBugMsg) else .ok false
  | .dictB | .mappingB => .ok (isDictV v)
  | .dictP kt vt | .mappingP kt vt =>
    match v with
    | .vdict _ es => isinstEntries es kt vt path
    | _ => .ok false

/-- The loop of `_UnionTypeHandler.isinstance`: the value must pass
every branch (a conjunction, exactly as in the source). -/
def isinstAll (v : Value) (ts : List Ty) (path : List Value) : Except Err Bool :=
  match ts with
  | [] => .ok true
  | t :: rest =>
    match isinst v t path with
    | .error e => .error e
    | .ok false => .ok false
    | .ok true => isinstAll v rest path

/-- The loop of `_MappingTypeHandler._isinstance_parameterized`: every
key and every value must match, path extended with the key. -/
def isinstEntries (es : List (Value × Value)) (kt vt : Ty) (path : List Value) :
    Except Err Bool :=
  match es with
  | [] => .ok true
  | (k, w) :: rest =>
    match isinst k kt (path ++ [k]) with
    | .error e => .error e
    | .ok false => .ok false
    | .ok true =>
      match isinst w vt (path ++ [k]) with
      | .error e => .error e
      | .ok false => .ok false
      | .ok true => isinstEntries rest kt vt path

end

mutual

/-- Recursive `convert`: `TypeConverter._convert_recursive` composed
with handler dispatch, one arm per handler `convert` method.

The default `_TypeHandler.convert` is `ensure_isinstance` followed by
returning the value unchanged; `_IntTypeHandler`/`_FloatTypeHandler`
ensure against `numbers.Integral`/`numbers.Real` and narrow with
`int()`/`float()`; `_DictTypeHandler` and `_ListTypeHandler` rebuild
parameterized containers and pass already-native containers through
unchanged (identity) in the unparameterized case. -/
def tconvert (v : Value) (t : Ty) (path : List Value) : Except Err Value :=
  match t with
  | .any => .ok v
  | .union ts => tconvertUnion v ts (tyName (.union ts)) path
  | .int | .integral =>
    if isIntegralV v then .ok (.vint (intOfV v))
    else .error (.conversionError v ("numbers.Integral") path)
  | .float | .real =>
    if isRealV v then .ok (.vfloat (ratOfV v))
    else .error (.conversionError v ("numbers.Real") path)
  | .bool =>
    if isBoolV v then .ok v else .error (.conversionError v (tyName t) path)
  | .str =>
    if isStrV v then .ok v else .error (.conversionError v (tyName t) path)
  | .noneT =>
    if isNoneV v then .ok v else .error (.conversionError v (tyName t) path)
  | .tupleB =>
    if isTupleV v then .ok v else .error (.conversionError v (tyName t) path)
  | .tupleP => .error (.notImplementedError tupleNotImplMsg)
  | .setB =>
    .error (.conversionError v (tyName t) path)
  | .collectionB =>
    if isCollectionV v then .ok v else .error (.conversionError v (tyName t) path)
  | .setP _ | .collectionP _ =>
    match isinst v t path with
    | .error e => .error e
    | .ok false => .error (.conversionError v (tyName t) path)
    | .ok true => .ok v
  | .listB | .sequenceB =>
    if isSequenceV v && !(isStrV v) then
      match v with
      | .vlist a xs => .ok (.vlist a xs)
      | .vtuple xs => .ok (.vlist none xs)
      | _ => .error (.conversionError v ("typing.Sequence") path)
    else .error (.conversionError v ("typing.Sequence") path)
  | .listP et | .sequenceP et =>
    if isSequenceV v && !(isStrV v) then
      match v with
      | .vlist _ xs => (tconvertElems xs et 0 path).map (fun l => .vlist none l)
      | .vtuple xs => (tconvertElems xs et 0 path).map (fun l => .vlist none l)
      | _ => .error (.conversionError v ("typing.Sequence") path)
    else .error (.conversionError v ("typing.Sequence") path)
  | .dictB | .mappingB =>
    match v with
    | .vdict a es => .ok (.vdict a es)
    | _ => .error (.conversionError v ("typing.Mapping") path)
  | .dictP kt vt | .mappingP kt vt =>
    match v with
    | .vdict _ es => (tconvertEntries es kt vt [] path).map (fun l => .vdict none l)
    | _ => .error (.conversionError v ("typing.Mapping") path)

/-- The loop of `_UnionTypeHandler.convert`: branches are tried in
declared order; the first branch whose recursive `isinstance` succeeds
is converted to; exhaustion raises a `TypeConversionError` naming the
union. -/
def tconvertUnion (v : Value) (ts : List Ty) (uname : String) (path : List Value) :
    Except Err Value :=
  match ts with
  | [] => .error (.conversionError v uname path)
  | t :: rest =>
    match isinst v t path with
    | .error e => .error e
    | .ok true => tconvert v t path
    | .ok false => tconvertUnion v rest uname path

/-- The loop of `_ListTypeHandler._convert_parameterized`: elements are
converted in order, path extended with the element index. -/
def tconvertElems (xs : List Value) (et : Ty) (i : Nat) (path : List Value) :
    Except Err (List Value) :=
  match xs with
  | [] => .ok []
  | x :: rest =>
    match tconvert x et (path ++ [.vint (i : Int)]) with
    | .error e => .error e
    | .ok xc => (tconvertElems rest et (i + 1) path).map (fun l => xc :: l)

/-- The loop of `_DictTypeHandler._convert_parameterized`: keys and
values are converted in order (path extended with the original key) and
assigned into a fresh dict. -/
def tconvertEntries (es : List (Value × Value)) (kt vt : Ty)
    (acc : List (Value × Value)) (path : List Value) :
    Except Err (List (Value × Value)) :=
  match es with
  | [] => .ok acc
  | (k, w) :: rest =>
    match tconvert k kt (path ++ [k]) with
    | .error e => .error e
    | .ok kc =>
      match tconvert w vt (path ++ [k]) with
      | .error e => .error e
      | .ok wc => tconvertEntries rest kt vt (dictInsert acc kc wc) path

end

namespace TypeConverter

/-- Public `TypeConverter.isinstance` (alias resolution is the identity
on this descriptor algebra; the outer path is empty). -/
def isinstance (v : Value) (t : Ty) : Except Err Bool :=
  isinst v t []

/-- Public `TypeConverter.ensure_isinstance`. -/
def ensure_isinstance (v : Value) (t : Ty) : Except Err Unit :=
  match isinst v t [] with
  | .error e => .error e
  | .ok false => .error (.conversionError v (tyName t) [])
  | .ok true => .ok ()

/-- Public `TypeConverter.convert` (module-level alias `astype`). -/
def convert (v : Value) (t : Ty) : Except Err Value :=
  tconvert v t []

end TypeConverter

/-- A single-quote character, for building Python `repr` text. -/
def squote : String := String.singleton (Char.ofNat 39)

/-- Python `str(k)` for the key kinds that `_mapping_to_json`
stringifies (`isinstance(k, int)`, which includes `bool`). -/
def pyStrOfKey : Value → String
  | .vbool b => if b then "True" else "False"
  | .vint n => toString n
  | _ => ""

/-- The key-kind state of the `_mapping_to_json` loop (`keytype`). -/
inductive KeyT where
  | strK : KeyT
  | intK : KeyT

/-- The `if keytype is None` step of `_mapping_to_json`: the first key
seen fixes the key kind (`isinstance(k, str)` first, then
`isinstance(k, int)`, which includes `bool`). -/
def keyFix (kt : Option KeyT) (k : Value) : Option KeyT :=
  match kt with
  | none => if isStrV k then some .strK else if isIntegralV k then some .intK else none
  | some x => some x

/-- The key-conversion step of `_mapping_to_json`: under the `str` kind
a text key is kept, under the `int` kind an integral key is
stringified; `none` means the `JsonTypeError` branch. -/
def keyConvert (kt1 : Option KeyT) (k : Value) : Option Value :=
  match kt1 with
  | some .strK => if isStrV k then some k else none
  | some .intK => if isIntegralV k then some (Value.vstr (pyStrOfKey k)) else none
  | none => none

mutual

/-- `JsonConverter._to_json`: scalars pass through unchanged (`bool`
passes the `isinstance(value, (int, float, str, NoneType))` test since
`bool` is a subclass of `int`); mappings go through `_mapping_to_json`;
other collections become lists of recursively converted elements.  The
`Jsonable` arm and the generic `Integral`/`Real` narrowing arms of the
source are unreachable on this value fragment and the final
`JsonTypeError` arm is unreachable because every constructor is a
scalar, mapping or collection. -/
def toJson (v : Value) (path : List Value) : Except Err Value :=
  match v with
  | .vint n => .ok (.vint n)
  | .vbool b => .ok (.vbool b)
  | .vfloat q => .ok (.vfloat q)
  | .vstr s => .ok (.vstr s)
  | .vnone => .ok .vnone
  | .vdict _ es => (mappingToJsonLoop none es [] path).map (fun l => .vdict none l)
  | .vlist _ xs => (seqToJson xs 0 path).map (fun l => .vlist none l)
  | .vtuple xs => (seqToJson xs 0 path).map (fun l => .vlist none l)

/-- The list comprehension of `_to_json` for non-mapping collections:
elements recurse with the index appended to the path. -/
def seqToJson (xs : List Value) (i : Nat) (path : List Value) :
    Except Err (List Value) :=
  match xs with
  | [] => .ok []
  | x :: rest =>
    match toJson x (path ++ [.vint (i : Int)]) with
    | .error e => .error e
    | .ok xc => (seqToJson rest (i + 1) path).map (fun l => xc :: l)

/-- The loop of `JsonConverter._mapping_to_json`: the first key seen
fixes `keytype` to text or integral (`keyFix`); text keys are kept,
integral keys are stringified, any key that does not fit the fixed kind
raises `JsonTypeError` (`keyConvert`); values recurse with the key
appended to the path. -/
def mappingToJsonLoop (kt : Option KeyT) (es : List (Value × Value))
    (acc : List (Value × Value)) (path : List Value) :
    Except Err (List (Value × Value)) :=
  match es with
  | [] => .ok acc
  | (k, w) :: rest =>
    match keyConvert (keyFix kt k) k with
    | none => .error (.jsonError ("Mapping keys must be str or int") path)
    | some kc =>
      match toJson w (path ++ [k]) with
      | .error e => .error e
      | .ok wc => mappingToJsonLoop (keyFix kt k) rest (dictInsert acc kc wc) path

end

/-- Public `JsonConverter.to_json`. -/
def to_json (v : Value) : Except Err Value :=
  toJson v []

/-- Public `JsonConverter._mapping_to_json` entry (fresh `converted`
dict, `keytype = None`). -/
def mappingToJson (es : List (Value × Value)) (path : List Value) :
    Except Err (List (Value × Value)) :=
  mappingToJsonLoop none es [] path

/-- The guard of the integer-key special case in
`JsonTypeConverter._convert_recursive` (json.py:42-45):
`issubclass(type_, typing.Mapping) and issubclass(dict, type_) and
type_.__args__ and type_.__args__[0] == str`.

On the Python 3.6 runtime this library targets (its test-suite relies
on bare generics reporting `__args__ = None`, a 3.6 behaviour), the
guard itself raises before ever deciding:

  * for a parameterized mapping descriptor such as `Dict[int, str]`,
    line 42 is `True` and line 43 `issubclass(dict, type_)` raises
    `TypeError`, because `GenericMeta.__subclasscheck__` forbids
    parameterized generics in subclass checks outside `abc`/`functools`
    (on 3.7 line 42 already raises for subscripted generics).  The
    `__args__[0] == str` comparison — which tests for TEXT, not
    integral, key types — and the `{int(k): v}` rebuild after it are
    therefore unreachable at runtime;
  * for a `Union[...]` or `Any` descriptor, which is not a class,
    line 42 `issubclass(type_, typing.Mapping)` raises as well: the
    3.6 typing subclass hook evaluates `type_.__mro__`, which these
    objects lack, giving `AttributeError` (3.7 raises `TypeError`
    instead; either way the exception propagates out of `from_json`);
  * every remaining descriptor of the algebra is a class, line 42
    evaluates to `False` for the non-mapping ones and the bare
    `Dict`/`Mapping` forms fail the `type_.__args__` conjunct, so the
    standard conversion proceeds. -/
def jsonPre (data : Value) (t : Ty) (_path : List Value) : Except Err Value :=
  match t with
  | .dictP _ _ | .mappingP _ _ =>
    .error (.typeError
      ("Parameterized generics cannot be used with class or instance checks"))
  | .union _ | .any =>
    .error (.attributeError ("object has no attribute __mro__"))
  | _ => .ok data

set_option linter.unusedTactic false in
mutual

/-- `JsonTypeConverter._convert_recursive`: the guard of the
integer-key special case runs first (and, as `jsonPre` records, raises
for parameterized mapping, union and `Any` descriptors); then (the
`JsonConstructible` short-circuit does not apply to this descriptor
algebra) the standard handler dispatch of
`TypeConverter._convert_recursive`, whose recursive conversions go
through the override again (dynamic dispatch). -/
def jconvert (data : Value) (t : Ty) (path : List Value) : Except Err Value :=
  match jsonPre data t path with
  | .error e => .error e
  | .ok data1 => jconvertStd data1 t path
termination_by (sizeOf t, 3)
decreasing_by all_goals (try simp_wf); all_goals (simp [Prod.lex_def]; try omega)

/-- Handler dispatch for `JsonTypeConverter`: identical to `tconvert`
except that container and union recursion re-enters `jconvert`. -/
def jconvertStd (v : Value) (t : Ty) (path : List Value) : Except Err Value :=
  match t with
  | .any => .ok v
  | .union ts => jconvertUnion v ts (tyName (.union ts)) path
  | .int | .integral =>
    if isIntegralV v then .ok (.vint (intOfV v))
    else .error (.conversionError v ("numbers.Integral") path)
  | .float | .real =>
    if isRealV v then .ok (.vfloat (ratOfV v))
    else .error (.conversionError v ("numbers.Real") path)
  | .bool =>
    if isBoolV v then .ok v else .error (.conversionError v (tyName t) path)
  | .str =>
    if isStrV v then .ok v else .error (.conversionError v (tyName t) path)
  | .noneT =>
    if isNoneV v then .ok v else .error (.conversionError v (tyName t) path)
  | .tupleB =>
    if isTupleV v then .ok v else .error (.conversionError v (tyName t) path)
  | .tupleP => .error (.notImplementedError tupleNotImplMsg)
  | .setB =>
    .error (.conversionError v (tyName t) path)
  | .collectionB =>
    if isCollectionV v then .ok v else .error (.conversionError v (tyName t) path)
  | .setP _ | .collectionP _ =>
    match isinst v t path with
    | .error e => .error e
    | .ok false => .error (.conversionError v (tyName t) path)
    | .ok true => .ok v
  | .listB | .sequenceB =>
    if isSequenceV v && !(isStrV v) then
      match v with
      | .vlist a xs => .ok (.vlist a xs)
      | .vtuple xs => .ok (.vlist none xs)
      | _ => .error (.conversionError v ("typing.Sequence") path)
    else .error (.conversionError v ("typing.Sequence") path)
  | .listP et | .sequenceP et =>
    if isSequenceV v && !(isStrV v) then
      match v with
      | .vlist _ xs => (jconvertElems xs et 0 path).map (fun l => .vlist none l)
      | .vtuple xs => (jconvertElems xs et 0 path).map (fun l => .vlist none l)
      | _ => .error (.conversionError v ("typing.Sequence") path)
    else .error (.conversionError v ("typing.Sequence") path)
  | .dictB | .mappingB =>
    match v with
    | .vdict a es => .ok (.vdict a es)
    | _ => .error (.conversionError v ("typing.Mapping") path)
  | .dictP kt vt | .mappingP kt vt =>
    match v with
    | .vdict _ es => (jconvertEntries es kt vt [] path).map (fun l => .vdict none l)
    | _ => .error (.conversionError v ("typing.Mapping") path)
termination_by (sizeOf t, 2)
decreasing_by all_goals (try simp_wf); all_goals (simp [Prod.lex_def]; try omega)

/-- Union branch loop under the JSON converter. -/
def jconvertUnion (v : Value) (ts : List Ty) (uname : String) (path : List Value) :
    Except Err Value :=
  match ts with
  | [] => .error (.conversionError v uname path)
  | t :: rest =>
    match isinst v t path with
    | .error e => .error e
    | .ok true => jconvert v t path
    | .ok false => jconvertUnion v rest uname path
termination_by (sizeOf ts, 2)
decreasing_by all_goals (try simp_wf); all_goals (simp [Prod.lex_def]; try omega)

/-- Sequence element loop under the JSON converter. -/
def jconvertElems (xs : List Value) (et : Ty) (i : Nat) (path : List Value) :
    Except Err (List Value) :=
  match xs with
  | [] => .ok []
  | x :: rest =>
    match jconvert x et (path ++ [.vint (i : Int)]) with
    | .error e => .error e
    | .ok xc => (jconvertElems rest et (i + 1) path).map (fun l => xc :: l)
termination_by (sizeOf et, 4 + sizeOf xs)
decreasing_by all_goals (try simp_wf); all_goals (simp [Prod.lex_def]; try omega)

/-- Mapping entry loop under the JSON converter. -/
def jconvertEntries (es : List (Value × Value)) (kt vt : Ty)
    (acc : List (Value × Value)) (path : List Value) :
    Except Err (List (Value × Value)) :=
  match es with
  | [] => .ok acc
  | (k, w) :: rest =>
    match jconvert k kt (path ++ [k]) with
    | .error e => .error e
    | .ok kc =>
      match jconvert w vt (path ++ [k]) with
      | .error e => .error e
      | .ok wc => jconvertEntries rest kt vt (dictInsert acc kc wc) path
termination_by (sizeOf kt + sizeOf vt, 4 + sizeOf es)
decreasing_by all_goals (try simp_wf); all_goals (simp [Prod.lex_def]; try omega)

end

/-- A record field as declared through `pydatatypes.dataclass.field`,
restricted to the flags the decoding path reads (`convert_type=True`,
the default, is assumed: the attr converter is `astype` to the declared
type). -/
structure FieldSpec where
  fname : String
  ftype : Ty
  optional : Bool
  fdefault : Option Value

/-- A record class: its declared fields in declaration order. -/
structure RecordCls where
  rfields : List FieldSpec

/-- `dataclass.field_from_json`: `None` bypasses conversion for
optional fields, otherwise `from_json(data, field.type)` — which by the
argument order of `JsonConverter.from_json`'s body reaches
`convert(data, field.type)`, the correct orientation. -/
def fieldFromJson (f : FieldSpec) (data : Value) : Except Err Value :=
  match data, f.optional with
  | .vnone, true => .ok .vnone
  | _, _ => jconvert data f.ftype []

/-- Python `data.pop(key)` on a dict: remove and return the value of
the first `peq`-matching key, keeping the order of the rest. -/
def dictPop (es : List (Value × Value)) (k : Value) :
    Option (Value × List (Value × Value)) :=
  match es with
  | [] => none
  | (k0, v0) :: rest =>
    if peq k0 k then some (v0, rest)
    else (dictPop rest k).map (fun r => (r.1, (k0, v0) :: r.2))

/-- The field loop of `dataclass_from_json`: pop each declared field
from the input (absent fields are skipped — the `KeyError` is caught
and the constructor default applies later) and convert the popped
value through `field_from_json`.  Returns the converted values and the
remaining unconsumed entries. -/
def popFields (fields : List FieldSpec) (es : List (Value × Value)) :
    Except Err (List (String × Value) × List (Value × Value)) :=
  match fields with
  | [] => .ok ([], es)
  | f :: rest =>
    match dictPop es (.vstr f.fname) with
    | none => popFields rest es
    | some (dv, es1) =>
      match fieldFromJson f dv with
      | .error e => .error e
      | .ok cv => (popFields rest es1).map (fun r => ((f.fname, cv) :: r.1, r.2))

/-- Python `repr` of a dict key, for the `KeyError` message text. -/
def keyRepr : Value → String
  | .vstr s => squote ++ s ++ squote
  | .vint n => toString n
  | .vbool b => if b then "True" else "False"
  | .vnone => "None"
  | _ => "..."

/-- The message of the `KeyError` raised on an unconsumed input key. -/
def unknownKeyMsg (k : Value) : String :=
  "Unknown key " ++ keyRepr k ++ " in data"

/-- Assoc lookup by field name. -/
def lookupVal (vals : List (String × Value)) (n : String) : Option Value :=
  match vals with
  | [] => none
  | (m, v) :: rest => if m == n then some v else lookupVal rest n

/-- The attr field converter installed by `field` (default flags):
`astype` to the declared type, wrapped in `attr.converters.optional`
for optional fields so that `None` bypasses it. -/
def applyFieldConv (f : FieldSpec) (v : Value) : Except Err Value :=
  match v, f.optional with
  | .vnone, true => .ok .vnone
  | _, _ => tconvert v f.ftype []

/-- The attr-generated constructor `cls(**values)`: each declared field
takes the supplied value or its declared default, passed through the
field's converter; a missing value for a field with no default raises
`TypeError`.  An instance is its field assignment in declaration
order. -/
def mkInstance (fields : List FieldSpec) (vals : List (String × Value)) :
    Except Err (List (String × Value)) :=
  match fields with
  | [] => .ok []
  | f :: rest =>
    match (match lookupVal vals f.fname with
           | some v => some v
           | none => f.fdefault) with
    | none => .error (.typeError ("missing required positional argument"))
    | some v =>
      match applyFieldConv f v with
      | .error e => .error e
      | .ok cv => (mkInstance rest vals).map (fun l => (f.fname, cv) :: l)

/-- `dataclass.dataclass_from_json`: the input must be a dict; declared
fields are popped and converted; any remaining key raises `KeyError`
naming the first of them unless `ignore_extra_keys` is set; finally the
constructor is called with the converted values. -/
def dataclass_from_json (cls : RecordCls) (data : Value)
    (ignore_extra_keys : Bool) : Except Err (List (String × Value)) :=
  match data with
  | .vdict _ es =>
    match popFields cls.rfields es with
    | .error e => .error e
    | .ok (vals, leftover) =>
      match leftover with
      | (k, _) :: _ =>
        if ignore_extra_keys then mkInstance cls.rfields vals
        else .error (.keyError (unknownKeyMsg k))
      | [] => mkInstance cls.rfields vals
  | _ => .error (.typeError ("Expected data to be dict"))

/-- No `Union` occurs anywhere inside the descriptor. -/
def unionFree : Ty → Bool
  | .union _ => false
  | .listP e | .sequenceP e | .collectionP e | .setP e => unionFree e
  | .dictP k v | .mappingP k v => unionFree k && unionFree v
  | _ => true

/-- Whether a computation failed with a `TypeConversionError` (or its
subclass `JsonTypeError`). -/
def isConvFailure {α : Type} : Except Err α → Bool
  | .error e => e.isConversionError
  | .ok _ => false

/-- Statement of the text-key half of the key-unification rule, in the
words of the spec: every key is kept as is and every value is converted
recursively. -/
def strKeysToJson (es : List (Value × Value)) (acc : List (Value × Value))
    (path : List Value) : Except Err (List (Value × Value)) :=
  match es with
  | [] => .ok acc
  | (k, w) :: rest =>
    match toJson w (path ++ [k]) with
    | .error e => .error e
    | .ok wc => strKeysToJson rest (dictInsert acc k wc) path

/-- Statement of the integral-key half of the key-unification rule, in
the words of the spec: every key is stringified to its text form and
every value is converted recursively. -/
def intKeysToJson (es : List (Value × Value)) (acc : List (Value × Value))
    (path : List Value) : Except Err (List (Value × Value)) :=
  match es with
  | [] => .ok acc
  | (k, w) :: rest =>
    match toJson w (path ++ [k]) with
    | .error e => .error e
    | .ok wc => intKeysToJson rest (dictInsert acc (Value.vstr (pyStrOfKey k)) wc) path

/-- A value is a possible output of `tconvert` at descriptor `t`. -/
def GoodConv (t : Ty) (x : Value) : Prop :=
  ∃ src p2, tconvert src t p2 = .ok x

/-- The keys of a dict are pairwise distinct under Python `==`
(the invariant of dicts built by repeated assignment). -/
def DistinctKeys (l : List (Value × Value)) : Prop :=
  l.Pairwise (fun a b => peq a.1 b.1 = false)

/-- C1: for every Union descriptor and value, `isinstance` returns true
if and only if the recursive `isinstance` check of every branch returns
true — a conjunction over all branches, exactly as the source's
`_UnionTypeHandler.isinstance` loop is written; in particular a value
satisfying exactly one of several branches yields false. -/
theorem union_isinstance_requires_every_branch (v : Value) (ts : List Ty) (p : List Value) :
    isinst v (Ty.union ts) p = .ok true ↔ ∀ t ∈ ts, isinst v t p = .ok true := by
  have h0 : isinst v (Ty.union ts) p = isinstAll v ts p := by simp [isinst]
  rw [h0]; clear h0
  induction ts with
  | nil => simp [isinstAll]
  | cons t rest ih =>
    cases hh : isinst v t p with
    | error e => simp [isinstAll, hh, List.forall_mem_cons]
    | ok b =>
      cases b
      · simp [isinstAll, hh, List.forall_mem_cons]
      · simp [isinstAll, hh, List.forall_mem_cons, ih]

/-- C10: the boolean exclusion from numeric widening applies only to
the target descriptor, not to the value: for every boolean `b`,
`convert(b, int)` succeeds (b is an instance of `numbers.Integral`) and
returns the native integer `int(b)` — a `vint`, not a `vbool`. -/
theorem bool_value_converts_to_int (b : Bool) :
    TypeConverter.convert (Value.vbool b) Ty.int = .ok (Value.vint (if b then 1 else 0)) := by
  simp [TypeConverter.convert, tconvert, isIntegralV, intOfV]

/-- C6: converting a native list under an unparameterized list/sequence
descriptor, or a native dict under an unparameterized dict/mapping
descriptor, returns the identical object — the result carries the same
address as the input, not a fresh one. -/
theorem unparameterized_container_conversion_identity (a a2 : Option Nat)
    (xs : List Value) (es : List (Value × Value)) :
    TypeConverter.convert (Value.vlist a xs) Ty.listB = .ok (Value.vlist a xs)
  ∧ TypeConverter.convert (Value.vlist a xs) Ty.sequenceB = .ok (Value.vlist a xs)
  ∧ TypeConverter.convert (Value.vdict a2 es) Ty.dictB = .ok (Value.vdict a2 es)
  ∧ TypeConverter.convert (Value.vdict a2 es) Ty.mappingB = .ok (Value.vdict a2 es) := by
  refine ⟨?_, ?_, ?_, ?_⟩ <;> simp [TypeConverter.convert, tconvert, isSequenceV, isStrV, isDictV]

/-- C4 (code bug): `isinstance` does not return a boolean for every
well-formed descriptor: on `[1, 2]` against `List[int]` the collection
handler reaches line 388 of `typing.py`, which passes `self` as an
extra positional argument to `_isinstance_parameterized` and raises
`TypeError` instead of reporting a boolean verdict. -/
theorem parameterized_collection_isinstance_raises :
    TypeConverter.isinstance (Value.vlist (some 0) [Value.vint 1, Value.vint 2]) (Ty.listP Ty.int)
      = .error (.typeError arityBugMsg) := by
  simp [TypeConverter.isinstance, isinst, isListV]

/-- C8 (counterexample): a text value DOES satisfy the bare `Sequence`
descriptor — `is_instance("abc", Sequence)` returns true, because the
text carve-out exists only in `_ListTypeHandler.convert`, not in the
`isinstance` path. -/
theorem text_satisfies_bare_sequence_isinstance :
    TypeConverter.isinstance (Value.vstr "abc") Ty.sequenceB = .ok true := by
  simp [TypeConverter.isinstance, isinst, isSequenceV]

/-- C8 (amended): for every text value and sequence-family descriptor,
`convert` raises a `TypeConversionError` (the text carve-out lives in
`convert`); `is_instance` performs no text carve-out: it returns true
for bare `Sequence`, raises the line-388 `TypeError` for parameterized
`Sequence[...]`, and returns false for `List`-based descriptors only
because text fails the `list` base instance check. -/
theorem text_sequence_convert_always_raises (s : String) (et : Ty) :
    TypeConverter.convert (Value.vstr s) Ty.listB
        = .error (.conversionError (Value.vstr s) ("typing.Sequence") [])
  ∧ TypeConverter.convert (Value.vstr s) (Ty.listP et)
        = .error (.conversionError (Value.vstr s) ("typing.Sequence") [])
  ∧ TypeConverter.convert (Value.vstr s) Ty.sequenceB
        = .error (.conversionError (Value.vstr s) ("typing.Sequence") [])
  ∧ TypeConverter.convert (Value.vstr s) (Ty.sequenceP et)
        = .error (.conversionError (Value.vstr s) ("typing.Sequence") [])
  ∧ TypeConverter.isinstance (Value.vstr s) Ty.sequenceB = .ok true
  ∧ TypeConverter.isinstance (Value.vstr s) (Ty.sequenceP et) = .error (.typeError arityBugMsg)
  ∧ TypeConverter.isinstance (Value.vstr s) Ty.listB = .ok false
  ∧ TypeConverter.isinstance (Value.vstr s) (Ty.listP et) = .ok false := by
  refine ⟨?_, ?_, ?_, ?_, ?_, ?_, ?_, ?_⟩ <;>
    simp [TypeConverter.convert, TypeConverter.isinstance, tconvert, isinst,
      isSequenceV, isStrV, isListV]

/-- C3 (code bug): decoding `{"1": "a", "2": "b"}` into
`Dict[int, str]` never reinterprets the text keys as integers: the
special case of `JsonTypeConverter._convert_recursive` raises before
doing anything, because its own guard `issubclass(dict, type_)`
(json.py:43) raises `TypeError` for every parameterized mapping
descriptor on the Python 3.6 runtime (on 3.7 line 42 raises instead),
so `from_serialized` fails with `TypeError` rather than yielding
`{1: "a", 2: "b"}`.  Even the comparison after the guard, were it ever
reached, tests `type_.__args__[0] == str` — text, not integral, key
types — against the stated intent of the branch's own comment.  A bare
(unparameterized) mapping descriptor passes the guard unharmed, showing
the failure is specific to the parameterized form the claim needs. -/
theorem from_json_integral_key_reinterpretation_bug :
    jconvert (Value.vdict (some 0)
        [(Value.vstr "1", Value.vstr "a"), (Value.vstr "2", Value.vstr "b")])
      (Ty.dictP Ty.int Ty.str) []
      = .error (.typeError
          ("Parameterized generics cannot be used with class or instance checks"))
  ∧ jconvert (Value.vdict (some 0)
        [(Value.vstr "1", Value.vstr "a"), (Value.vstr "2", Value.vstr "b")])
      Ty.dictB []
      = .ok (Value.vdict (some 0)
          [(Value.vstr "1", Value.vstr "a"), (Value.vstr "2", Value.vstr "b")]) := by
  constructor
  · simp [jconvert, jsonPre]
  · simp [jconvert, jsonPre, jconvertStd]

/-- C5 (counterexample): decoding a record from data with the extra key
`"bad"` in non-lenient mode raises `KeyError`, not a Conversion Error:
the error is `Err.keyError` and `isConvFailure` is false on it. -/
theorem record_extra_key_raises_keyerror_not_conversionerror :
    dataclass_from_json ⟨[⟨"x", Ty.int, false, none⟩]⟩
      (Value.vdict (some 0) [(Value.vstr "x", Value.vint 1), (Value.vstr "bad", Value.vint 2)])
      false
      = .error (.keyError (unknownKeyMsg (Value.vstr "bad")))
  ∧ isConvFailure (dataclass_from_json ⟨[⟨"x", Ty.int, false, none⟩]⟩
      (Value.vdict (some 0) [(Value.vstr "x", Value.vint 1), (Value.vstr "bad", Value.vint 2)])
      false) = false := by
  have hxx : peq (Value.vstr "x") (Value.vstr "x") = true := by simp [peq]
  constructor
  · simp [dataclass_from_json, popFields, dictPop, hxx, fieldFromJson, jconvert, jsonPre,
      jconvertStd, isIntegralV, intOfV, Except.map]
  · simp [dataclass_from_json, popFields, dictPop, hxx, fieldFromJson, jconvert, jsonPre,
      jconvertStd, isIntegralV, intOfV, Except.map, isConvFailure,
      Err.isConversionError]

/-- C5 (amended): for every record type and serialized dict whose
declared fields decode successfully but which leaves at least one
unconsumed key, non-lenient decoding raises a `KeyError` naming the
first unrecognized key (not a Conversion Error), and lenient decoding
succeeds, discarding the extra keys. -/
theorem record_extra_key_keyerror_and_lenient (cls : RecordCls) (a : Option Nat)
    (es : List (Value × Value)) (vals : List (String × Value))
    (k w : Value) (rest : List (Value × Value)) (inst : List (String × Value))
    (h1 : popFields cls.rfields es = .ok (vals, (k, w) :: rest))
    (h2 : mkInstance cls.rfields vals = .ok inst) :
    dataclass_from_json cls (Value.vdict a es) false = .error (.keyError (unknownKeyMsg k))
  ∧ dataclass_from_json cls (Value.vdict a es) true = .ok inst := by
  constructor
  · simp [dataclass_from_json, h1]
  · simp [dataclass_from_json, h1, h2]

/-- C5 witness: the amended claim at a concrete record and input. -/
theorem record_extra_key_keyerror_and_lenient_witness :
    dataclass_from_json ⟨[⟨"x", Ty.int, false, none⟩]⟩
      (Value.vdict none [(Value.vstr "x", Value.vint 1), (Value.vstr "bad", Value.vint 2)])
      false
      = .error (.keyError (unknownKeyMsg (Value.vstr "bad")))
  ∧ dataclass_from_json ⟨[⟨"x", Ty.int, false, none⟩]⟩
      (Value.vdict none [(Value.vstr "x", Value.vint 1), (Value.vstr "bad", Value.vint 2)])
      true
      = .ok [("x", Value.vint 1)] := by
  have hxx : peq (Value.vstr "x") (Value.vstr "x") = true := by simp [peq]
  exact record_extra_key_keyerror_and_lenient ⟨[⟨"x", Ty.int, false, none⟩]⟩ none
    [(Value.vstr "x", Value.vint 1), (Value.vstr "bad", Value.vint 2)]
    [("x", Value.vint 1)] (Value.vstr "bad") (Value.vint 2) [] [("x", Value.vint 1)]
    (by simp [popFields, dictPop, hxx, fieldFromJson, jconvert, jsonPre,
          jconvertStd, isIntegralV, intOfV, Except.map])
    (by simp [mkInstance, lookupVal, applyFieldConv, tconvert, isIntegralV, intOfV, Except.map])

/-- C7 (counterexample): conversion is not idempotent.  Take
`K = Union[Dict[int, int], Dict[bool, int]]` — both branches are
parameterized generics, which the Python 3.6 `Union` construction
exempts from its subclass weeding (3.7 weeds nothing), so `K` survives
with both branches — nested inside
`T = Union[Dict[str, K], str]`, whose two branches are likewise not
subclass-related, and `v = {"a": {True: 7}}`.  The first conversion
succeeds with `{"a": {1: 7}}`: the conjunctive union `isinstance`
accepts the inner dict `{True: 7}` under `K` because `True` is an
instance of both `int` and `bool`, and the first branch of `K` rebuilds
it with key `int(True) = 1`.  Converting the result again under `T`
raises: `1` is not an instance of `bool`, so `{1: 7}` now fails the
conjunction for `K`, the `Dict[str, K]` branch is rejected, and the
union exhausts. -/
theorem convert_not_idempotent_with_union :
    TypeConverter.convert
        (Value.vdict (some 0)
          [(Value.vstr "a", Value.vdict (some 1) [(Value.vbool true, Value.vint 7)])])
        (Ty.union [Ty.dictP Ty.str
            (Ty.union [Ty.dictP Ty.int Ty.int, Ty.dictP Ty.bool Ty.int]), Ty.str])
      = .ok (Value.vdict none
          [(Value.vstr "a", Value.vdict none [(Value.vint 1, Value.vint 7)])])
  ∧ TypeConverter.convert
        (Value.vdict none
          [(Value.vstr "a", Value.vdict none [(Value.vint 1, Value.vint 7)])])
        (Ty.union [Ty.dictP Ty.str
            (Ty.union [Ty.dictP Ty.int Ty.int, Ty.dictP Ty.bool Ty.int]), Ty.str])
      = .error (.conversionError
          (Value.vdict none
            [(Value.vstr "a", Value.vdict none [(Value.vint 1, Value.vint 7)])])
          ("typing.Union") []) := by
  constructor
  · simp [TypeConverter.convert, tconvert, tconvertUnion, tconvertEntries, isinst,
      isinstEntries, isinstAll, isIntegralV, isBoolV, isStrV, isDictV, dictInsert,
      intOfV, tyName, Except.map]
  · simp [TypeConverter.convert, tconvert, tconvertUnion, tconvertEntries, isinst,
      isinstEntries, isinstAll, isIntegralV, isBoolV, isStrV, isDictV, dictInsert,
      intOfV, tyName, Except.map]

theorem dictInsert_key_mem (d : List (Value × Value)) (k v : Value) :
    ∀ pr ∈ dictInsert d k v, pr.1 = k ∨ ∃ w, (pr.1, w) ∈ d := by
  induction d with
  | nil =>
    intro pr hpr
    simp [dictInsert] at hpr
    left; simp [hpr]
  | cons hd rest ih =>
    obtain ⟨k0, v0⟩ := hd
    intro pr hpr
    simp only [dictInsert] at hpr
    by_cases hk : peq k0 k = true
    · rw [if_pos hk] at hpr
      rcases List.mem_cons.mp hpr with h | h
      · right; exact ⟨v0, by simp [h]⟩
      · right; exact ⟨pr.2, List.mem_cons_of_mem _ (by simpa using h)⟩
    · rw [if_neg hk] at hpr
      rcases List.mem_cons.mp hpr with h | h
      · right; exact ⟨v0, by simp [h]⟩
      · rcases ih pr h with h1 | ⟨w, hw⟩
        · left; exact h1
        · right; exact ⟨w, List.mem_cons_of_mem _ hw⟩

theorem dictInsert_val_mem (d : List (Value × Value)) (k v : Value) :
    ∀ pr ∈ dictInsert d k v, pr.2 = v ∨ pr ∈ d := by
  induction d with
  | nil =>
    intro pr hpr
    simp [dictInsert] at hpr
    left; simp [hpr]
  | cons hd rest ih =>
    obtain ⟨k0, v0⟩ := hd
    intro pr hpr
    simp only [dictInsert] at hpr
    by_cases hk : peq k0 k = true
    · rw [if_pos hk] at hpr
      rcases List.mem_cons.mp hpr with h | h
      · left; simp [h]
      · right; exact List.mem_cons_of_mem _ h
    · rw [if_neg hk] at hpr
      rcases List.mem_cons.mp hpr with h | h
      · right; exact List.mem_cons.mpr (Or.inl h)
      · rcases ih pr h with h1 | h1
        · left; exact h1
        · right; exact List.mem_cons_of_mem _ h1

theorem dictInsert_append (d : List (Value × Value)) (k v : Value)
    (h : ∀ pr ∈ d, peq pr.1 k = false) :
    dictInsert d k v = d ++ [(k, v)] := by
  induction d with
  | nil => simp [dictInsert]
  | cons hd rest ih =>
    obtain ⟨k0, v0⟩ := hd
    have hk : peq k0 k = false := h (k0, v0) (by simp)
    simp only [dictInsert, hk]
    simp only [Bool.false_eq_true, if_false, List.cons_append, List.cons.injEq, true_and]
    exact ih (fun pr hpr => h pr (List.mem_cons_of_mem _ hpr))

theorem dictInsert_pairwise (d : List (Value × Value)) (k v : Value)
    (h : DistinctKeys d) : DistinctKeys (dictInsert d k v) := by
  induction d with
  | nil => simp [dictInsert, DistinctKeys]
  | cons hd rest ih =>
    obtain ⟨k0, v0⟩ := hd
    rw [DistinctKeys, List.pairwise_cons] at h
    by_cases hk : peq k0 k = true
    · rw [DistinctKeys]
      simp only [dictInsert, hk, if_true, List.pairwise_cons]
      exact ⟨fun b hb => h.1 b hb, h.2⟩
    · rw [DistinctKeys]
      simp only [dictInsert, hk, if_neg hk, List.pairwise_cons]
      constructor
      · intro b hb
        rcases dictInsert_key_mem rest k v b hb with h1 | ⟨w, hw⟩
        · rw [h1]; exact Bool.not_eq_true _ ▸ (by simpa using hk)
        · exact h.1 (b.1, w) hw
      · exact ih h.2

theorem tconvertEntries_good (kt vt : Ty) :
    ∀ (es acc : List (Value × Value)) (p : List Value) (l : List (Value × Value)),
    tconvertEntries es kt vt acc p = .ok l →
    (∀ pr ∈ acc, GoodConv kt pr.1 ∧ GoodConv vt pr.2) →
    ∀ pr ∈ l, GoodConv kt pr.1 ∧ GoodConv vt pr.2 := by
  intro es
  induction es with
  | nil =>
    intro acc p l h hacc
    simp [tconvertEntries] at h
    exact h ▸ hacc
  | cons hd rest ih =>
    obtain ⟨k, w⟩ := hd
    intro acc p l h hacc
    simp only [tconvertEntries] at h
    cases hk : tconvert k kt (p ++ [k]) with
    | error e => rw [hk] at h; simp at h
    | ok kc =>
      rw [hk] at h
      cases hw : tconvert w vt (p ++ [k]) with
      | error e => rw [hw] at h; simp at h
      | ok wc =>
        rw [hw] at h
        simp only at h
        apply ih _ p l h
        intro pr hpr
        constructor
        · rcases dictInsert_key_mem acc kc wc pr hpr with h1 | ⟨w2, hw2⟩
          · rw [h1]; exact ⟨k, p ++ [k], hk⟩
          · exact (hacc (pr.1, w2) hw2).1
        · rcases dictInsert_val_mem acc kc wc pr hpr with h1 | h1
          · rw [h1]; exact ⟨w, p ++ [k], hw⟩
          · exact (hacc pr h1).2

theorem tconvertEntries_distinct (kt vt : Ty) :
    ∀ (es acc : List (Value × Value)) (p : List Value) (l : List (Value × Value)),
    tconvertEntries es kt vt acc p = .ok l →
    DistinctKeys acc → DistinctKeys l := by
  intro es
  induction es with
  | nil =>
    intro acc p l h hacc
    simp [tconvertEntries] at h
    exact h ▸ hacc
  | cons hd rest ih =>
    obtain ⟨k, w⟩ := hd
    intro acc p l h hacc
    simp only [tconvertEntries] at h
    cases hk : tconvert k kt (p ++ [k]) with
    | error e => rw [hk] at h; simp at h
    | ok kc =>
      rw [hk] at h
      cases hw : tconvert w vt (p ++ [k]) with
      | error e => rw [hw] at h; simp at h
      | ok wc =>
        rw [hw] at h
        simp only at h
        exact ih _ p l h (dictInsert_pairwise acc kc wc hacc)

theorem tconvertEntries_rebuild (kt vt : Ty) :
    ∀ (l : List (Value × Value)),
    (∀ pr ∈ l, (∀ p2, tconvert pr.1 kt p2 = .ok pr.1) ∧ (∀ p2, tconvert pr.2 vt p2 = .ok pr.2)) →
    DistinctKeys l →
    ∀ (acc : List (Value × Value)) (p2 : List Value),
    (∀ a ∈ acc, ∀ b ∈ l, peq a.1 b.1 = false) →
    tconvertEntries l kt vt acc p2 = .ok (acc ++ l) := by
  intro l
  induction l with
  | nil => intro _ _ acc p2 _; simp [tconvertEntries]
  | cons hd rest ih =>
    obtain ⟨k, w⟩ := hd
    intro hid hdist acc p2 hdisj
    have hk := (hid (k, w) (by simp)).1 (p2 ++ [k])
    have hw := (hid (k, w) (by simp)).2 (p2 ++ [k])
    rw [DistinctKeys, List.pairwise_cons] at hdist
    have hins : dictInsert acc k w = acc ++ [(k, w)] :=
      dictInsert_append acc k w (fun pr hpr => hdisj pr hpr (k, w) (by simp))
    have hdisj2 : ∀ a ∈ acc ++ [(k, w)], ∀ b ∈ rest, peq a.1 b.1 = false := by
      intro a ha b hb
      rcases List.mem_append.mp ha with h1 | h1
      · exact hdisj a h1 b (List.mem_cons_of_mem _ hb)
      · have : a = (k, w) := by simpa using h1
        rw [this]; exact hdist.1 b hb
    have hrec := ih (fun pr hpr => hid pr (List.mem_cons_of_mem _ hpr))
      (by rw [DistinctKeys]; exact hdist.2) (acc ++ [(k, w)]) p2 hdisj2
    simp only [tconvertEntries, hk, hw, hins, hrec]
    simp

theorem tconvertElems_good (et : Ty) :
    ∀ (xs : List Value) (i : Nat) (p : List Value) (ys : List Value),
    tconvertElems xs et i p = .ok ys →
    ∀ y ∈ ys, ∃ x p2, tconvert x et p2 = .ok y := by
  intro xs
  induction xs with
  | nil =>
    intro i p ys h
    simp [tconvertElems] at h
    subst h
    simp
  | cons x rest ih =>
    intro i p ys h
    simp only [tconvertElems] at h
    cases hx : tconvert x et (p ++ [.vint (i : Int)]) with
    | error e => rw [hx] at h; simp at h
    | ok xc =>
      rw [hx] at h
      cases hr : tconvertElems rest et (i + 1) p with
      | error e => rw [hr] at h; simp [Except.map] at h
      | ok l =>
        rw [hr] at h
        simp [Except.map] at h
        intro y hy
        rw [← h] at hy
        rcases List.mem_cons.mp hy with h1 | h1
        · exact ⟨x, p ++ [.vint (i : Int)], h1 ▸ hx⟩
        · exact ih (i + 1) p l hr y h1

theorem tconvertElems_rebuild (et : Ty) :
    ∀ (ys : List Value),
    (∀ y ∈ ys, ∀ p2, tconvert y et p2 = .ok y) →
    ∀ (i : Nat) (p2 : List Value),
    tconvertElems ys et i p2 = .ok ys := by
  intro ys
  induction ys with
  | nil => intro _ i p2; simp [tconvertElems]
  | cons y rest ih =>
    intro hid i p2
    have hy := hid y (by simp) (p2 ++ [.vint (i : Int)])
    have hr := ih (fun z hz => hid z (List.mem_cons_of_mem _ hz)) (i + 1) p2
    simp [tconvertElems, hy, hr, Except.map]

theorem tconvert_idem_aux :
    ∀ (n : Nat) (t : Ty), sizeOf t ≤ n → unionFree t = true →
    ∀ (v c : Value) (p p2 : List Value),
    tconvert v t p = .ok c → tconvert c t p2 = .ok c := by
  intro n
  induction n with
  | zero =>
    intro t ht
    exfalso
    cases t <;> simp at ht
  | succ n ih =>
    intro t ht hUF v c p p2 h
    cases t with
    | union ts => simp [unionFree] at hUF
    | any =>
      simp [tconvert] at h
      subst h
      simp [tconvert]
    | int =>
      simp only [tconvert] at h
      cases hv : isIntegralV v with
      | false => simp [hv] at h
      | true =>
        simp [hv] at h
        subst h
        simp [tconvert, isIntegralV, intOfV]
    | integral =>
      simp only [tconvert] at h
      cases hv : isIntegralV v with
      | false => simp [hv] at h
      | true =>
        simp [hv] at h
        subst h
        simp [tconvert, isIntegralV, intOfV]
    | float =>
      simp only [tconvert] at h
      cases hv : isRealV v with
      | false => simp [hv] at h
      | true =>
        simp [hv] at h
        subst h
        simp [tconvert, isRealV, ratOfV]
    | real =>
      simp only [tconvert] at h
      cases hv : isRealV v with
      | false => simp [hv] at h
      | true =>
        simp [hv] at h
        subst h
        simp [tconvert, isRealV, ratOfV]
    | bool =>
      simp only [tconvert] at h
      cases hv : isBoolV v with
      | false => simp [hv] at h
      | true =>
        simp [hv] at h
        subst h
        simp [tconvert, hv]
    | str =>
      simp only [tconvert] at h
      cases hv : isStrV v with
      | false => simp [hv] at h
      | true =>
        simp [hv] at h
        subst h
        simp [tconvert, hv]
    | noneT =>
      simp only [tconvert] at h
      cases hv : isNoneV v with
      | false => simp [hv] at h
      | true =>
        simp [hv] at h
        subst h
        simp [tconvert, hv]
    | tupleB =>
      simp only [tconvert] at h
      cases hv : isTupleV v with
      | false => simp [hv] at h
      | true =>
        simp [hv] at h
        subst h
        simp [tconvert, hv]
    | collectionB =>
      simp only [tconvert] at h
      cases hv : isCollectionV v with
      | false => simp [hv] at h
      | true =>
        simp [hv] at h
        subst h
        simp [tconvert, hv]
    | setB => simp [tconvert] at h
    | tupleP => simp [tconvert] at h
    | setP e => simp [tconvert, isinst] at h
    | collectionP e =>
      cases hv : isCollectionV v with
      | false => simp [tconvert, isinst, hv] at h
      | true => simp [tconvert, isinst, hv] at h
    | listB =>
      cases v with
      | vlist a xs =>
        simp [tconvert, isSequenceV, isStrV] at h
        subst h
        simp [tconvert, isSequenceV, isStrV]
      | vtuple xs =>
        simp [tconvert, isSequenceV, isStrV] at h
        subst h
        simp [tconvert, isSequenceV, isStrV]
      | vnone => simp [tconvert, isSequenceV, isStrV] at h
      | vbool b => simp [tconvert, isSequenceV, isStrV] at h
      | vint m => simp [tconvert, isSequenceV, isStrV] at h
      | vfloat q => simp [tconvert, isSequenceV, isStrV] at h
      | vstr s => simp [tconvert, isSequenceV, isStrV] at h
      | vdict a es => simp [tconvert, isSequenceV, isStrV] at h
    | sequenceB =>
      cases v with
      | vlist a xs =>
        simp [tconvert, isSequenceV, isStrV] at h
        subst h
        simp [tconvert, isSequenceV, isStrV]
      | vtuple xs =>
        simp [tconvert, isSequenceV, isStrV] at h
        subst h
        simp [tconvert, isSequenceV, isStrV]
      | vnone => simp [tconvert, isSequenceV, isStrV] at h
      | vbool b => simp [tconvert, isSequenceV, isStrV] at h
      | vint m => simp [tconvert, isSequenceV, isStrV] at h
      | vfloat q => simp [tconvert, isSequenceV, isStrV] at h
      | vstr s => simp [tconvert, isSequenceV, isStrV] at h
      | vdict a es => simp [tconvert, isSequenceV, isStrV] at h
    | listP et =>
      have hUF2 : unionFree et = true := by simpa [unionFree] using hUF
      have hsz : sizeOf et ≤ n := by simp at ht; omega
      have hkey : ∀ (xs : List Value) (a : Option Nat),
          (tconvertElems xs et 0 p).map (fun l => Value.vlist none l) = .ok c →
          tconvert c (Ty.listP et) p2 = .ok c := by
        intro xs a hmap
        cases hel : tconvertElems xs et 0 p with
        | error e => rw [hel] at hmap; simp [Except.map] at hmap
        | ok ys =>
          rw [hel] at hmap
          simp [Except.map] at hmap
          subst hmap
          have hpt : ∀ y ∈ ys, ∀ p3, tconvert y et p3 = .ok y := by
            intro y hy p3
            obtain ⟨x, px, hx⟩ := tconvertElems_good et xs 0 p ys hel y hy
            exact ih et hsz hUF2 x y px p3 hx
          have hreb := tconvertElems_rebuild et ys hpt 0 p2
          simp [tconvert, isSequenceV, isStrV, hreb, Except.map]
      cases v with
      | vlist a xs =>
        simp only [tconvert, isSequenceV, isStrV] at h
        exact hkey xs a (by simpa using h)
      | vtuple xs =>
        simp only [tconvert, isSequenceV, isStrV] at h
        exact hkey xs none (by simpa using h)
      | vnone => simp [tconvert, isSequenceV, isStrV] at h
      | vbool b => simp [tconvert, isSequenceV, isStrV] at h
      | vint m => simp [tconvert, isSequenceV, isStrV] at h
      | vfloat q => simp [tconvert, isSequenceV, isStrV] at h
      | vstr s => simp [tconvert, isSequenceV, isStrV] at h
      | vdict a es => simp [tconvert, isSequenceV, isStrV] at h
    | sequenceP et =>
      have hUF2 : unionFree et = true := by simpa [unionFree] using hUF
      have hsz : sizeOf et ≤ n := by simp at ht; omega
      have hkey : ∀ (xs : List Value) (a : Option Nat),
          (tconvertElems xs et 0 p).map (fun l => Value.vlist none l) = .ok c →
          tconvert c (Ty.sequenceP et) p2 = .ok c := by
        intro xs a hmap
        cases hel : tconvertElems xs et 0 p with
        | error e => rw [hel] at hmap; simp [Except.map] at hmap
        | ok ys =>
          rw [hel] at hmap
          simp [Except.map] at hmap
          subst hmap
          have hpt : ∀ y ∈ ys, ∀ p3, tconvert y et p3 = .ok y := by
            intro y hy p3
            obtain ⟨x, px, hx⟩ := tconvertElems_good et xs 0 p ys hel y hy
            exact ih et hsz hUF2 x y px p3 hx
          have hreb := tconvertElems_rebuild et ys hpt 0 p2
          simp [tconvert, isSequenceV, isStrV, hreb, Except.map]
      cases v with
      | vlist a xs =>
        simp only [tconvert, isSequenceV, isStrV] at h
        exact hkey xs a (by simpa using h)
      | vtuple xs =>
        simp only [tconvert, isSequenceV, isStrV] at h
        exact hkey xs none (by simpa using h)
      | vnone => simp [tconvert, isSequenceV, isStrV] at h
      | vbool b => simp [tconvert, isSequenceV, isStrV] at h
      | vint m => simp [tconvert, isSequenceV, isStrV] at h
      | vfloat q => simp [tconvert, isSequenceV, isStrV] at h
      | vstr s => simp [tconvert, isSequenceV, isStrV] at h
      | vdict a es => simp [tconvert, isSequenceV, isStrV] at h
    | dictB =>
      cases v with
      | vdict a es =>
        simp [tconvert] at h
        subst h
        simp [tconvert]
      | vnone => simp [tconvert] at h
      | vbool b => simp [tconvert] at h
      | vint m => simp [tconvert] at h
      | vfloat q => simp [tconvert] at h
      | vstr s => simp [tconvert] at h
      | vlist a xs => simp [tconvert] at h
      | vtuple xs => simp [tconvert] at h
    | mappingB =>
      cases v with
      | vdict a es =>
        simp [tconvert] at h
        subst h
        simp [tconvert]
      | vnone => simp [tconvert] at h
      | vbool b => simp [tconvert] at h
      | vint m => simp [tconvert] at h
      | vfloat q => simp [tconvert] at h
      | vstr s => simp [tconvert] at h
      | vlist a xs => simp [tconvert] at h
      | vtuple xs => simp [tconvert] at h
    | dictP kt vt =>
      have hUFk : unionFree kt = true := by
        have := hUF; simp [unionFree] at this; exact this.1
      have hUFv : unionFree vt = true := by
        have := hUF; simp [unionFree] at this; exact this.2
      have hszk : sizeOf kt ≤ n := by simp at ht; omega
      have hszv : sizeOf vt ≤ n := by simp at ht; omega
      cases v with
      | vdict a es =>
        simp only [tconvert] at h
        cases hent : tconvertEntries es kt vt [] p with
        | error e => rw [hent] at h; simp [Except.map] at h
        | ok l =>
          rw [hent] at h
          simp [Except.map] at h
          subst h
          have hgood := tconvertEntries_good kt vt es [] p l hent (by simp)
          have hdist := tconvertEntries_distinct kt vt es [] p l hent (by simp [DistinctKeys])
          have hpt : ∀ pr ∈ l,
              (∀ p3, tconvert pr.1 kt p3 = .ok pr.1) ∧
              (∀ p3, tconvert pr.2 vt p3 = .ok pr.2) := by
            intro pr hpr
            obtain ⟨⟨sk, pk, hk2⟩, ⟨sv, pv, hv2⟩⟩ := hgood pr hpr
            exact ⟨fun p3 => ih kt hszk hUFk sk pr.1 pk p3 hk2,
                   fun p3 => ih vt hszv hUFv sv pr.2 pv p3 hv2⟩
          have hreb := tconvertEntries_rebuild kt vt l hpt hdist [] p2 (by simp)
          simp [tconvert, hreb, Except.map]
      | vnone => simp [tconvert] at h
      | vbool b => simp [tconvert] at h
      | vint m => simp [tconvert] at h
      | vfloat q => simp [tconvert] at h
      | vstr s => simp [tconvert] at h
      | vlist a xs => simp [tconvert] at h
      | vtuple xs => simp [tconvert] at h
    | mappingP kt vt =>
      have hUFk : unionFree kt = true := by
        have := hUF; simp [unionFree] at this; exact this.1
      have hUFv : unionFree vt = true := by
        have := hUF; simp [unionFree] at this; exact this.2
      have hszk : sizeOf kt ≤ n := by simp at ht; omega
      have hszv : sizeOf vt ≤ n := by simp at ht; omega
      cases v with
      | vdict a es =>
        simp only [tconvert] at h
        cases hent : tconvertEntries es kt vt [] p with
        | error e => rw [hent] at h; simp [Except.map] at h
        | ok l =>
          rw [hent] at h
          simp [Except.map] at h
          subst h
          have hgood := tconvertEntries_good kt vt es [] p l hent (by simp)
          have hdist := tconvertEntries_distinct kt vt es [] p l hent (by simp [DistinctKeys])
          have hpt : ∀ pr ∈ l,
              (∀ p3, tconvert pr.1 kt p3 = .ok pr.1) ∧
              (∀ p3, tconvert pr.2 vt p3 = .ok pr.2) := by
            intro pr hpr
            obtain ⟨⟨sk, pk, hk2⟩, ⟨sv, pv, hv2⟩⟩ := hgood pr hpr
            exact ⟨fun p3 => ih kt hszk hUFk sk pr.1 pk p3 hk2,
                   fun p3 => ih vt hszv hUFv sv pr.2 pv p3 hv2⟩
          have hreb := tconvertEntries_rebuild kt vt l hpt hdist [] p2 (by simp)
          simp [tconvert, hreb, Except.map]
      | vnone => simp [tconvert] at h
      | vbool b => simp [tconvert] at h
      | vint m => simp [tconvert] at h
      | vfloat q => simp [tconvert] at h
      | vstr s => simp [tconvert] at h
      | vlist a xs => simp [tconvert] at h
      | vtuple xs => simp [tconvert] at h

/-- C7 (amended): conversion is idempotent for every descriptor free
of `Union`: if `convert(v, T)` succeeds with `c`, then `convert(c, T)`
succeeds and returns `c` itself. -/
theorem convert_idempotent_union_free (t : Ty) (hUF : unionFree t = true)
    (v c : Value) (h : TypeConverter.convert v t = .ok c) :
    TypeConverter.convert c t = .ok c :=
  tconvert_idem_aux (sizeOf t) t le_rfl hUF v c [] [] h

/-- C7 witness: the amended claim at the concrete input `True : int`. -/
theorem convert_idempotent_union_free_witness :
    unionFree Ty.int = true
  ∧ TypeConverter.convert (Value.vbool true) Ty.int = .ok (Value.vint 1)
  ∧ TypeConverter.convert (Value.vint 1) Ty.int = .ok (Value.vint 1) := by
  refine ⟨by simp [unionFree], by simp [TypeConverter.convert, tconvert, isIntegralV, intOfV], ?_⟩
  exact convert_idempotent_union_free Ty.int (by simp [unionFree]) (Value.vbool true)
    (Value.vint 1) (by simp [TypeConverter.convert, tconvert, isIntegralV, intOfV])

theorem toJson_err_aux :
    ∀ (n : Nat),
    (∀ (v : Value) (p : List Value) (e : Err), sizeOf v ≤ n →
      toJson v p = .error e → e.isConversionError = true)
  ∧ (∀ (xs : List Value) (i : Nat) (p : List Value) (e : Err), sizeOf xs ≤ n →
      seqToJson xs i p = .error e → e.isConversionError = true)
  ∧ (∀ (kt : Option KeyT) (es acc : List (Value × Value)) (p : List Value) (e : Err),
      sizeOf es ≤ n →
      mappingToJsonLoop kt es acc p = .error e → e.isConversionError = true) := by
  intro n
  induction n with
  | zero =>
    refine ⟨?_, ?_, ?_⟩
    · intro v p e hsz _; exfalso; cases v <;> simp at hsz
    · intro xs i p e hsz _; exfalso; cases xs <;> simp at hsz
    · intro kt es acc p e hsz _; exfalso; cases es <;> simp at hsz
  | succ n ih =>
    obtain ⟨ihv, ihs, ihm⟩ := ih
    refine ⟨?_, ?_, ?_⟩
    · intro v p e hsz h
      cases v with
      | vnone => simp [toJson] at h
      | vbool b => simp [toJson] at h
      | vint m => simp [toJson] at h
      | vfloat q => simp [toJson] at h
      | vstr s => simp [toJson] at h
      | vlist a xs =>
        simp only [toJson] at h
        cases hs : seqToJson xs 0 p with
        | error e2 =>
          rw [hs] at h; simp [Except.map] at h
          exact h ▸ ihs xs 0 p e2 (by simp at hsz; omega) hs
        | ok l => rw [hs] at h; simp [Except.map] at h
      | vtuple xs =>
        simp only [toJson] at h
        cases hs : seqToJson xs 0 p with
        | error e2 =>
          rw [hs] at h; simp [Except.map] at h
          exact h ▸ ihs xs 0 p e2 (by simp at hsz; omega) hs
        | ok l => rw [hs] at h; simp [Except.map] at h
      | vdict a es =>
        simp only [toJson] at h
        cases hs : mappingToJsonLoop none es [] p with
        | error e2 =>
          rw [hs] at h; simp [Except.map] at h
          exact h ▸ ihm none es [] p e2 (by simp at hsz; omega) hs
        | ok l => rw [hs] at h; simp [Except.map] at h
    · intro xs i p e hsz h
      cases xs with
      | nil => simp [seqToJson] at h
      | cons x rest =>
        simp only [seqToJson] at h
        cases hx : toJson x (p ++ [.vint (i : Int)]) with
        | error e2 =>
          rw [hx] at h; simp at h
          exact h ▸ ihv x (p ++ [.vint (i : Int)]) e2 (by simp at hsz; omega) hx
        | ok xc =>
          rw [hx] at h
          cases hr : seqToJson rest (i + 1) p with
          | error e2 =>
            rw [hr] at h; simp [Except.map] at h
            exact h ▸ ihs rest (i + 1) p e2 (by simp at hsz; omega) hr
          | ok l => rw [hr] at h; simp [Except.map] at h
    · intro kt es acc p e hsz h
      cases es with
      | nil => simp [mappingToJsonLoop] at h
      | cons pr rest =>
        obtain ⟨k, w⟩ := pr
        simp only [mappingToJsonLoop] at h
        cases hkc : keyConvert (keyFix kt k) k with
        | none =>
          rw [hkc] at h; simp at h
          rw [← h]; simp [Err.isConversionError]
        | some kc =>
          rw [hkc] at h
          cases hw : toJson w (p ++ [k]) with
          | error e2 =>
            rw [hw] at h; simp at h
            exact h ▸ ihv w (p ++ [k]) e2 (by simp at hsz; omega) hw
          | ok wc =>
            rw [hw] at h
            simp only at h
            exact ihm (keyFix kt k) rest (dictInsert acc kc wc) p e (by simp at hsz; omega) h

theorem toJson_err (v : Value) (p : List Value) (e : Err)
    (h : toJson v p = .error e) : e.isConversionError = true :=
  (toJson_err_aux (sizeOf v)).1 v p e le_rfl h

theorem loop_strK_eq :
    ∀ (es acc : List (Value × Value)) (p : List Value),
    (∀ pr ∈ es, isStrV pr.1 = true) →
    mappingToJsonLoop (some .strK) es acc p = strKeysToJson es acc p := by
  intro es
  induction es with
  | nil => intro acc p _; simp [mappingToJsonLoop, strKeysToJson]
  | cons pr rest ih =>
    obtain ⟨k, w⟩ := pr
    intro acc p hall
    have hks : isStrV k = true := hall (k, w) (by simp)
    simp only [mappingToJsonLoop, strKeysToJson, keyFix, keyConvert, hks, if_true]
    cases hw : toJson w (p ++ [k]) with
    | error e => simp [hw]
    | ok wc =>
      simp only [hw]
      exact ih (dictInsert acc k wc) p (fun q hq => hall q (List.mem_cons_of_mem _ hq))

theorem loop_intK_eq :
    ∀ (es acc : List (Value × Value)) (p : List Value),
    (∀ pr ∈ es, isIntegralV pr.1 = true) →
    mappingToJsonLoop (some .intK) es acc p = intKeysToJson es acc p := by
  intro es
  induction es with
  | nil => intro acc p _; simp [mappingToJsonLoop, intKeysToJson]
  | cons pr rest ih =>
    obtain ⟨k, w⟩ := pr
    intro acc p hall
    have hki : isIntegralV k = true := hall (k, w) (by simp)
    simp only [mappingToJsonLoop, intKeysToJson, keyFix, keyConvert, hki, if_true]
    cases hw : toJson w (p ++ [k]) with
    | error e => simp [hw]
    | ok wc =>
      simp only [hw]
      exact ih (dictInsert acc (Value.vstr (pyStrOfKey k)) wc) p
        (fun q hq => hall q (List.mem_cons_of_mem _ hq))

theorem loop_strK_mixed :
    ∀ (es acc : List (Value × Value)) (p : List Value),
    (∃ pr ∈ es, isStrV pr.1 = false) →
    isConvFailure (mappingToJsonLoop (some .strK) es acc p) = true := by
  intro es
  induction es with
  | nil => intro acc p h; simp at h
  | cons pr rest ih =>
    obtain ⟨k, w⟩ := pr
    intro acc p hex
    by_cases hk : isStrV k = true
    · have hex2 : ∃ pr ∈ rest, isStrV pr.1 = false := by
        rcases hex with ⟨q, hq, hbad⟩
        rcases List.mem_cons.mp hq with h1 | h1
        · exfalso; rw [h1] at hbad; simp at hbad; rw [hk] at hbad; exact Bool.true_eq_false ▸ hbad
        · exact ⟨q, h1, hbad⟩
      simp only [mappingToJsonLoop, keyFix, keyConvert, hk, if_true]
      cases hw : toJson w (p ++ [k]) with
      | error e => simp [hw, isConvFailure]; exact toJson_err w (p ++ [k]) e hw
      | ok wc =>
        simp only [hw]
        exact ih (dictInsert acc k wc) p hex2
    · have hk2 : isStrV k = false := by simpa using hk
      simp [mappingToJsonLoop, keyFix, keyConvert, hk2, isConvFailure, Err.isConversionError]

theorem loop_intK_mixed :
    ∀ (es acc : List (Value × Value)) (p : List Value),
    (∃ pr ∈ es, isIntegralV pr.1 = false) →
    isConvFailure (mappingToJsonLoop (some .intK) es acc p) = true := by
  intro es
  induction es with
  | nil => intro acc p h; simp at h
  | cons pr rest ih =>
    obtain ⟨k, w⟩ := pr
    intro acc p hex
    by_cases hk : isIntegralV k = true
    · have hex2 : ∃ pr ∈ rest, isIntegralV pr.1 = false := by
        rcases hex with ⟨q, hq, hbad⟩
        rcases List.mem_cons.mp hq with h1 | h1
        · exfalso; rw [h1] at hbad; simp at hbad; rw [hk] at hbad; exact Bool.true_eq_false ▸ hbad
        · exact ⟨q, h1, hbad⟩
      simp only [mappingToJsonLoop, keyFix, keyConvert, hk, if_true]
      cases hw : toJson w (p ++ [k]) with
      | error e => simp [hw, isConvFailure]; exact toJson_err w (p ++ [k]) e hw
      | ok wc =>
        simp only [hw]
        exact ih (dictInsert acc (Value.vstr (pyStrOfKey k)) wc) p hex2
    · have hk2 : isIntegralV k = false := by simpa using hk
      simp [mappingToJsonLoop, keyFix, keyConvert, hk2, isConvFailure, Err.isConversionError]

/-- C9: `_mapping_to_json` unifies key types by the first key
observed.  A text first key forces every key to be text (keys kept,
values recursed); an integral first key forces every key to be integral
(keys stringified, values recursed); any key of the other kind makes
the conversion fail with a Conversion Error rather than coerce
silently. -/
theorem mapping_to_json_key_unification (k0 w0 : Value)
    (rest : List (Value × Value)) (p : List Value) :
    (isStrV k0 = true →
      ((∀ pr ∈ (k0, w0) :: rest, isStrV pr.1 = true) →
        mappingToJson ((k0, w0) :: rest) p = strKeysToJson ((k0, w0) :: rest) [] p)
      ∧ ((∃ pr ∈ (k0, w0) :: rest, isStrV pr.1 = false) →
        isConvFailure (mappingToJson ((k0, w0) :: rest) p) = true))
  ∧ (isStrV k0 = false → isIntegralV k0 = true →
      ((∀ pr ∈ (k0, w0) :: rest, isIntegralV pr.1 = true) →
        mappingToJson ((k0, w0) :: rest) p = intKeysToJson ((k0, w0) :: rest) [] p)
      ∧ ((∃ pr ∈ (k0, w0) :: rest, isIntegralV pr.1 = false) →
        isConvFailure (mappingToJson ((k0, w0) :: rest) p) = true)) := by
  constructor
  · intro hk0
    have hfix : keyFix none k0 = some KeyT.strK := by simp [keyFix, hk0]
    constructor
    · intro hall
      have hrest : ∀ pr ∈ rest, isStrV pr.1 = true :=
        fun q hq => hall q (List.mem_cons_of_mem _ hq)
      simp only [mappingToJson, mappingToJsonLoop, strKeysToJson, hfix, keyConvert,
        hk0, if_true]
      cases hw : toJson w0 (p ++ [k0]) with
      | error e => simp [hw]
      | ok wc =>
        simp only [hw]
        exact loop_strK_eq rest (dictInsert [] k0 wc) p hrest
    · intro hex
      have hex2 : ∃ pr ∈ rest, isStrV pr.1 = false := by
        rcases hex with ⟨q, hq, hbad⟩
        rcases List.mem_cons.mp hq with h1 | h1
        · exfalso; rw [h1] at hbad; simp at hbad; rw [hk0] at hbad
          exact Bool.true_eq_false ▸ hbad
        · exact ⟨q, h1, hbad⟩
      simp only [mappingToJson, mappingToJsonLoop, hfix, keyConvert, hk0, if_true]
      cases hw : toJson w0 (p ++ [k0]) with
      | error e => simp [hw, isConvFailure]; exact toJson_err w0 (p ++ [k0]) e hw
      | ok wc =>
        simp only [hw]
        exact loop_strK_mixed rest (dictInsert [] k0 wc) p hex2
  · intro hk0f hk0i
    have hfix : keyFix none k0 = some KeyT.intK := by simp [keyFix, hk0f, hk0i]
    constructor
    · intro hall
      have hrest : ∀ pr ∈ rest, isIntegralV pr.1 = true :=
        fun q hq => hall q (List.mem_cons_of_mem _ hq)
      simp only [mappingToJson, mappingToJsonLoop, intKeysToJson, hfix, keyConvert,
        hk0i, if_true]
      cases hw : toJson w0 (p ++ [k0]) with
      | error e => simp [hw]
      | ok wc =>
        simp only [hw]
        exact loop_intK_eq rest (dictInsert [] (Value.vstr (pyStrOfKey k0)) wc) p hrest
    · intro hex
      have hex2 : ∃ pr ∈ rest, isIntegralV pr.1 = false := by
        rcases hex with ⟨q, hq, hbad⟩
        rcases List.mem_cons.mp hq with h1 | h1
        · exfalso; rw [h1] at hbad; simp at hbad; rw [hk0i] at hbad
          exact Bool.true_eq_false ▸ hbad
        · exact ⟨q, h1, hbad⟩
      simp only [mappingToJson, mappingToJsonLoop, hfix, keyConvert, hk0i, if_true]
      cases hw : toJson w0 (p ++ [k0]) with
      | error e => simp [hw, isConvFailure]; exact toJson_err w0 (p ++ [k0]) e hw
      | ok wc =>
        simp only [hw]
        exact loop_intK_mixed rest (dictInsert [] (Value.vstr (pyStrOfKey k0)) wc) p hex2

/-- C9 witness: the key-unification rule at concrete dicts. -/
theorem mapping_to_json_key_unification_witness :
    isStrV (Value.vstr "a") = true
  ∧ mappingToJson [(Value.vstr "a", Value.vint 1)] [] =
      strKeysToJson [(Value.vstr "a", Value.vint 1)] [] []
  ∧ isConvFailure
      (mappingToJson [(Value.vstr "a", Value.vint 1), (Value.vint 2, Value.vint 3)] [])
      = true := by
  refine ⟨rfl, ?_, ?_⟩
  · exact ((mapping_to_json_key_unification (Value.vstr "a") (Value.vint 1) [] []).1 rfl).1
      (by intro pr hpr; simp at hpr; simp [hpr, isStrV])
  · exact ((mapping_to_json_key_unification (Value.vstr "a") (Value.vint 1)
      [(Value.vint 2, Value.vint 3)] []).1 rfl).2
      ⟨(Value.vint 2, Value.vint 3), by simp, rfl⟩

end Pydatatypes
